import Mathlib

/-
Verification of the jobly job vertical slice: the SQL fragment builder
(helpers/sql.js, sqlForPartialUpdate) and the Job data-access component
(models/job.js: findAll, findFiltered, update, remove), shallowly embedded.

A JS object is modelled as an association list preserving key insertion
order (JS objects enumerate string keys in insertion order, and keys are
unique).  The database is modelled as a list of job rows in natural row
order; every SQL statement the component issues is embedded as a pure
function on that list.  Thrown BadRequestError / NotFoundError values are
modelled with an Except over an error-kind type; any other store failure
(for instance an assignment to a column the jobs table does not expose as
mutable) is the unexpected kind.
-/

/-- A JS/SQL value as it appears in the data objects the component handles:
strings, integers, exact-precision numerics (Postgres NUMERIC, used for the
equity column and modelled as a rational) and null. -/
inductive Value where
  | str (s : String)
  | int (n : Int)
  | rat (q : Rat)
  | null
deriving DecidableEq

/-- The error taxonomy of expressError.js as the component uses it:
BadRequestError, NotFoundError, and everything else (store-level failures,
which propagate unmodified). -/
inductive ErrKind where
  | badRequest
  | notFound
  | unexpected
deriving DecidableEq

/-- A JS object: an association list of string keys to values, in key
insertion order.  Real JS objects have pairwise distinct keys. -/
abbrev JsObject (α : Type) := List (String × α)

/-- Property lookup on a JS object (first binding of the key wins, matching
objects whose keys are distinct): jsToSql[colName]. -/
def lookupField (m : JsObject String) (k : String) : Option String :=
  (m.find? (fun p => p.1 == k)).map (fun p => p.2)

/-- The column chosen for a data key: jsToSql[colName] || colName.  The JS
|| operator falls back when the lookup result is falsy, which for this map
means the key is absent (undefined) or bound to a falsy string — the empty
string is the falsy string value. -/
def colFor (m : JsObject String) (k : String) : String :=
  match lookupField m k with
  | some c => if c = "" then k else c
  | none => k

/-- The result record of sqlForPartialUpdate: setCols is the joined SET
fragment string, values the positional parameter values. -/
structure SqlUpdate where
  setCols : String
  values : List Value
deriving DecidableEq

/-- One assignment fragment, as produced by the keys.map callback of
sqlForPartialUpdate for key colName at 0-based position idx:
a quoted column name, an equals sign, and the 1-based placeholder. -/
def sqlFragment (m : JsObject String) (colName : String) (idx : Nat) : String :=
  "\"" ++ colFor m colName ++ "\"=$" ++ toString (idx + 1)

/-- The list of assignment fragments for a key list, in key order. -/
def sqlFragments (m : JsObject String) (keys : List String) : List String :=
  keys.enum.map (fun p => sqlFragment m p.2 p.1)

/-- helpers/sql.js sqlForPartialUpdate: takes the keys of dataToUpdate,
throws BadRequestError when there are none, otherwise maps each key to a
quoted-column/placeholder fragment, joins them with a comma, and returns
the fragment string together with Object.values(dataToUpdate). -/
def sqlForPartialUpdate (dataToUpdate : JsObject Value) (jsToSql : JsObject String) :
    Except ErrKind SqlUpdate :=
  let keys := dataToUpdate.map (fun kv => kv.1)
  if keys.length = 0 then .error .badRequest
  else .ok { setCols := String.intercalate (", ") (sqlFragments jsToSql keys),
             values := dataToUpdate.map (fun kv => kv.2) }

/-- A row of the jobs table, in the shape every query of the component
returns it (company_handle aliased to companyHandle).  salary and equity
are nullable; equity is a NUMERIC, modelled as a rational. -/
structure JobRow where
  id : Int
  title : String
  salary : Option Int
  equity : Option Rat
  companyHandle : String
deriving DecidableEq

/-- The jobs table: its rows in natural row order. -/
abbrev Store := List JobRow

/-- Lexicographic order on character lists: the model of text ordering used
for ORDER BY company_handle. -/
def charListLe : List Char → List Char → Bool
  | [], _ => true
  | _ :: _, [] => false
  | a :: as, b :: bs => if a < b then true else if b < a then false else charListLe as bs

/-- Row comparison underlying ORDER BY company_handle. -/
def handleLe (a b : JobRow) : Bool :=
  charListLe a.companyHandle.data b.companyHandle.data

/-- ORDER BY company_handle: sort the result rows by company handle,
leaving rows with equal handles in natural row order. -/
def orderByCompanyHandle (rows : Store) : Store :=
  rows.mergeSort handleLe

namespace Job

/-- Job.findAll: SELECT every job ORDER BY company_handle. -/
def findAll (s : Store) : Store :=
  orderByCompanyHandle s

end Job

/-- The filters object findFiltered accepts: a partial set of title,
minSalary, hasEquity.  An absent property is none; hasEquity is the
boolean the route layer passes, truthy exactly when it is some true. -/
structure Filters where
  title : Option String := none
  minSalary : Option Int := none
  hasEquity : Option Bool := none

/-- Case-folding of a character list. -/
def lowerChars (cs : List Char) : List Char :=
  cs.map Char.toLower

/-- Does sub occur contiguously inside hay? -/
def containsChars (sub : List Char) : List Char → Bool
  | [] => sub.isEmpty
  | c :: rest => sub.isPrefixOf (c :: rest) || containsChars sub rest

/-- s ILIKE the pattern percent-pat-percent: case-insensitive containment
of pat in s. -/
def iLikeContains (pat s : String) : Bool :=
  containsChars (lowerChars pat.data) (lowerChars s.data)

/-- The WHERE predicate pushed for a present title filter:
title ILIKE percent-value-percent. -/
def titleFilterPred (t : String) (r : JobRow) : Bool :=
  iLikeContains t r.title

/-- The WHERE predicate pushed for a present minSalary filter:
salary >= minSalary; a NULL salary never satisfies a comparison. -/
def minSalaryPred (m : Int) (r : JobRow) : Bool :=
  match r.salary with
  | some sal => decide (m ≤ sal)
  | none => false

/-- The WHERE predicate pushed for a truthy hasEquity filter:
equity > 0; a NULL equity never satisfies a comparison. -/
def equityPred (r : JobRow) : Bool :=
  match r.equity with
  | some e => decide (0 < e)
  | none => false

namespace Job

/-- Job.findFiltered: collects one whereExpression per present filter
(title via ILIKE containment, minSalary via salary >= value, hasEquity —
when truthy — via equity > 0), applies the WHERE clause only when at least
one expression was collected (the expressions combine with AND), and
orders the result by company_handle exactly as findAll does. -/
def findFiltered (s : Store) (filters : Filters) : Store :=
  let whereExpressions : List (JobRow → Bool) :=
    (match filters.title with
     | some t => [titleFilterPred t]
     | none => []) ++
    (match filters.minSalary with
     | some m => [minSalaryPred m]
     | none => []) ++
    (if filters.hasEquity = some true then [equityPred] else [])
  let rows :=
    if whereExpressions.length > 0 then
      s.filter (fun r => whereExpressions.all (fun p => p r))
    else s
  orderByCompanyHandle rows

/-- Job.remove: first a SELECT of the rows with the given id; when its
rowCount is zero, NotFoundError is thrown and the store is untouched;
otherwise DELETE FROM jobs WHERE id = $1 and return undefined. -/
def remove (s : Store) (i : Int) : Except ErrKind Unit × Store :=
  let exists_rows := s.filter (fun r => r.id == i)
  if exists_rows.length == 0 then (.error .notFound, s)
  else (.ok (), s.filter (fun r => !(r.id == i)))

end Job

/-- The jsToSql map Job.update passes to sqlForPartialUpdate. -/
def jobJsToSql : JsObject String :=
  [("companyHandle", "company_handle")]

/-- Is a SET assignment one the jobs table accepts?  The mutable columns
and their types are title (text), salary (integer, nullable), equity
(numeric, nullable) and company_handle (text); the id column is generated
on insert and not assignable, and any other column name does not exist.
A statement assigning anything else fails at the store. -/
def validAssign (a : String × Value) : Bool :=
  if a.1 = "title" then
    (match a.2 with
     | .str _ => true
     | _ => false)
  else if a.1 = "salary" then
    (match a.2 with
     | .int _ => true
     | .null => true
     | _ => false)
  else if a.1 = "equity" then
    (match a.2 with
     | .rat _ => true
     | .null => true
     | _ => false)
  else if a.1 = "company_handle" then
    (match a.2 with
     | .str _ => true
     | _ => false)
  else false

/-- Effect of one SET assignment on a row.  Arms outside validAssign are
unreachable in Job.update (the statement fails before touching any row)
and leave the row unchanged. -/
def setCol (r : JobRow) (a : String × Value) : JobRow :=
  if a.1 = "title" then
    (match a.2 with
     | .str t => { r with title := t }
     | _ => r)
  else if a.1 = "salary" then
    (match a.2 with
     | .int n => { r with salary := some n }
     | .null => { r with salary := none }
     | _ => r)
  else if a.1 = "equity" then
    (match a.2 with
     | .rat q => { r with equity := some q }
     | .null => { r with equity := none }
     | _ => r)
  else if a.1 = "company_handle" then
    (match a.2 with
     | .str h => { r with companyHandle := h }
     | _ => r)
  else r

/-- Effect of a whole SET clause on a row, assignments applied left to
right. -/
def applyAssigns (r : JobRow) (assigns : List (String × Value)) : JobRow :=
  assigns.foldl setCol r

/-- The column/value pairs of the SET clause Job.update builds: the i-th
fragment of setCols names the column colFor jobJsToSql key_i and binds the
i-th positional value, which sqlForPartialUpdate took from the same data
entry, so the executed statement assigns exactly these pairs. -/
def updateAssigns (data : JsObject Value) : List (String × Value) :=
  data.map (fun kv => (colFor jobJsToSql kv.1, kv.2))

namespace Job

/-- Job.update: runs sqlForPartialUpdate with the companyHandle mapping
(propagating its BadRequestError on empty data, store untouched), then
executes UPDATE jobs SET setCols WHERE id = $(n+1) RETURNING the row.  The
single statement is atomic: if any SET assignment is invalid for the jobs
table it fails as a store error and nothing changes; otherwise every row
whose id matches is rewritten.  When RETURNING yields no row (no id
matched), NotFoundError is thrown; otherwise the updated row is
returned. -/
def update (s : Store) (i : Int) (data : JsObject Value) :
    Except ErrKind JobRow × Store :=
  match sqlForPartialUpdate data jobJsToSql with
  | .error e => (.error e, s)
  | .ok _ =>
    let assigns := updateAssigns data
    if assigns.all validAssign then
      let newRows := s.map (fun r => if r.id == i then applyAssigns r assigns else r)
      match (newRows.filter (fun r => r.id == i)).head? with
      | none => (.error .notFound, newRows)
      | some job => (.ok job, newRows)
    else (.error .unexpected, s)

end Job

/-- Modelled from the spec: the PATCH /jobs/:id route handler
(routes/jobs.js) is present in the repository only through its tests.  Per
the spec, an update attempt on companyHandle is not exposed through the
partial-update mapping path used by the API: the route validates the
request body against a schema exposing only the mutable job fields title,
salary and equity, and answers anything else (in particular companyHandle
or id, as its tests show) with BadRequest before Job.update runs. -/
def apiUpdateAllowed (k : String) : Bool :=
  k == "title" || k == "salary" || k == "equity"

/-- Modelled from the spec: the API partial-update path — route-level body
validation in front of Job.update. -/
def apiUpdate (s : Store) (i : Int) (data : JsObject Value) :
    Except ErrKind JobRow × Store :=
  if data.all (fun kv => apiUpdateAllowed kv.1) then Job.update s i data
  else (.error .badRequest, s)

/-
Shared helper lemmas.
-/

/-- On non-empty data, sqlForPartialUpdate returns the joined fragments of
the key list together with the values of the data object. -/
theorem sqlForPartialUpdate_eq (data : JsObject Value) (m : JsObject String)
    (h : data ≠ []) :
    sqlForPartialUpdate data m =
      .ok { setCols := String.intercalate (", ") (sqlFragments m (data.map (fun kv => kv.1))),
            values := data.map (fun kv => kv.2) } := by
  unfold sqlForPartialUpdate
  rw [if_neg]
  simp only [List.length_map, List.length_eq_zero]
  exact h

/-- The i-th fragment renders the i-th key's column with placeholder i+1. -/
theorem sqlFragments_get (m : JsObject String) (keys : List String)
    (i : Nat) (k : String) (hk : keys.get? i = some k) :
    (sqlFragments m keys).get? i =
      some ("\"" ++ colFor m k ++ "\"=$" ++ toString (i + 1)) := by
  unfold sqlFragments
  rw [List.get?_map, List.enum_get?, hk]
  rfl

/-- C1: for every non-empty dataToUpdate and every fieldNameMap,
sqlForPartialUpdate succeeds; its assignments string is the comma-join of
one fragment per key, in key order; fragment i (0-based) renders the i-th
key's column and binds the 1-based, contiguous placeholder i+1; and the
values are the input values in that same key order. -/
theorem sqlForPartialUpdate_ok (data : JsObject Value) (m : JsObject String)
    (h : data ≠ []) :
    ∃ frags : List String,
      sqlForPartialUpdate data m =
        .ok { setCols := String.intercalate (", ") frags,
              values := data.map (fun kv => kv.2) } ∧
      frags.length = data.length ∧
      ∀ i k v, data.get? i = some (k, v) →
        frags.get? i = some ("\"" ++ colFor m k ++ "\"=$" ++ toString (i + 1)) := by
  refine ⟨sqlFragments m (data.map (fun kv => kv.1)), sqlForPartialUpdate_eq data m h, ?_, ?_⟩
  · simp [sqlFragments, List.enum_length]
  · intro i k v hi
    apply sqlFragments_get
    rw [List.get?_map, hi]
    rfl

/-- Witness for C1 at the concrete input of the repository's own unit
test. -/
def exData1 : JsObject Value :=
  [(("firstName"), .str ("Aliya")), (("age"), .int 32)]

/-- The concrete fieldNameMap of the repository's unit test. -/
def exMap1 : JsObject String :=
  [(("firstName"), ("first_name"))]

theorem sqlForPartialUpdate_ok_witness :
    exData1 ≠ [] ∧
    ∃ frags : List String,
      sqlForPartialUpdate exData1 exMap1 =
        .ok { setCols := String.intercalate (", ") frags,
              values := exData1.map (fun kv => kv.2) } ∧
      frags.length = exData1.length ∧
      ∀ i k v, exData1.get? i = some (k, v) →
        frags.get? i = some ("\"" ++ colFor exMap1 k ++ "\"=$" ++ toString (i + 1)) :=
  ⟨by decide, sqlForPartialUpdate_ok exData1 exMap1 (by decide)⟩

/-- C3: sqlForPartialUpdate on an empty dataToUpdate fails with BadRequest
whatever the fieldNameMap, and consequently Job.update with empty data
fails with BadRequest for every id with the store untouched. -/
theorem emptyUpdate_badRequest :
    (∀ m : JsObject String, sqlForPartialUpdate [] m = .error .badRequest) ∧
    (∀ (s : Store) (i : Int), Job.update s i [] = (.error .badRequest, s)) :=
  ⟨fun _ => rfl, fun _ _ => rfl⟩

/-- C9: a dataToUpdate key that is absent from fieldNameMap is rendered
under its own (quoted) name as the column identifier of its fragment. -/
theorem unmappedKey_ownName (data : JsObject Value) (m : JsObject String)
    (i : Nat) (k : String) (v : Value)
    (hi : data.get? i = some (k, v)) (habs : lookupField m k = none) :
    ∃ frags : List String,
      sqlForPartialUpdate data m =
        .ok { setCols := String.intercalate (", ") frags,
              values := data.map (fun kv => kv.2) } ∧
      frags.get? i = some ("\"" ++ k ++ "\"=$" ++ toString (i + 1)) := by
  have hne : data ≠ [] := by
    intro he
    rw [he] at hi
    cases hi
  refine ⟨sqlFragments m (data.map (fun kv => kv.1)), sqlForPartialUpdate_eq data m hne, ?_⟩
  have hcol : colFor m k = k := by simp [colFor, habs]
  have := sqlFragments_get m (data.map (fun kv => kv.1)) i k (by rw [List.get?_map, hi]; rfl)
  rw [hcol] at this
  exact this

/-- Witness data for C9: the unmapped-key test case of the repository. -/
def exData2 : JsObject Value :=
  [(("lastName"), .str ("Smith")), (("age"), .int 40)]

theorem unmappedKey_ownName_witness :
    exData2.get? 0 = some (("lastName"), .str ("Smith")) ∧
    lookupField exMap1 ("lastName") = none ∧
    ∃ frags : List String,
      sqlForPartialUpdate exData2 exMap1 =
        .ok { setCols := String.intercalate (", ") frags,
              values := exData2.map (fun kv => kv.2) } ∧
      frags.get? 0 = some ("\"" ++ ("lastName") ++ "\"=$" ++ toString (0 + 1)) :=
  ⟨by decide, by decide,
   unmappedKey_ownName exData2 exMap1 0 ("lastName") (.str ("Smith")) (by decide) (by decide)⟩

/-- C10: a dataToUpdate key mapped to a falsy value — the empty string —
also falls back to its own name: the fallback is decided by truthiness of
the mapped value, not by presence of the key. -/
theorem falsyMappedKey_ownName (data : JsObject Value) (m : JsObject String)
    (i : Nat) (k : String) (v : Value)
    (hi : data.get? i = some (k, v)) (hfalsy : lookupField m k = some ("")) :
    ∃ frags : List String,
      sqlForPartialUpdate data m =
        .ok { setCols := String.intercalate (", ") frags,
              values := data.map (fun kv => kv.2) } ∧
      frags.get? i = some ("\"" ++ k ++ "\"=$" ++ toString (i + 1)) := by
  have hne : data ≠ [] := by
    intro he
    rw [he] at hi
    cases hi
  refine ⟨sqlFragments m (data.map (fun kv => kv.1)), sqlForPartialUpdate_eq data m hne, ?_⟩
  have hcol : colFor m k = k := by simp [colFor, hfalsy]
  have := sqlFragments_get m (data.map (fun kv => kv.1)) i k (by rw [List.get?_map, hi]; rfl)
  rw [hcol] at this
  exact this

/-- Witness map for C10: lastName present but mapped to the empty
string. -/
def exMap2 : JsObject String :=
  [(("lastName"), (""))]

theorem falsyMappedKey_ownName_witness :
    exData2.get? 0 = some (("lastName"), .str ("Smith")) ∧
    lookupField exMap2 ("lastName") = some ("") ∧
    ∃ frags : List String,
      sqlForPartialUpdate exData2 exMap2 =
        .ok { setCols := String.intercalate (", ") frags,
              values := exData2.map (fun kv => kv.2) } ∧
      frags.get? 0 = some ("\"" ++ ("lastName") ++ "\"=$" ++ toString (0 + 1)) :=
  ⟨by decide, by decide,
   falsyMappedKey_ownName exData2 exMap2 0 ("lastName") (.str ("Smith")) (by decide) (by decide)⟩

/-- C4: remove fails with NotFound exactly when no job with the id exists,
and then touches no row; when the job exists (ids being unique, as the
store guarantees), remove deletes exactly that row — the store keeps every
other row in order — and returns nothing. -/
theorem remove_notFound_spec (s : Store) (i : Int)
    (hu : (s.map (fun r => r.id)).Nodup) :
    ((∀ r ∈ s, r.id ≠ i) → Job.remove s i = (.error .notFound, s)) ∧
    ((Job.remove s i).1 = .error .notFound → ∀ r ∈ s, r.id ≠ i) ∧
    (∀ r ∈ s, r.id = i →
      ∃ l1 l2, s = l1 ++ r :: l2 ∧ Job.remove s i = (.ok (), l1 ++ l2)) := by
  refine ⟨?_, ?_, ?_⟩
  · intro h
    have hf : s.filter (fun r => r.id == i) = [] := by
      rw [List.filter_eq_nil]
      intro a ha
      simpa using h a ha
    simp only [Job.remove]
    rw [hf]
    rfl
  · intro h r hr hri
    have hmem : r ∈ s.filter (fun x => x.id == i) := by
      rw [List.mem_filter]
      exact ⟨hr, by simp [hri]⟩
    have hcond : ¬(((s.filter (fun x => x.id == i)).length == 0) = true) := by
      intro hc
      rw [beq_iff_eq, List.length_eq_zero] at hc
      rw [hc] at hmem
      cases hmem
    have hok : (Job.remove s i).1 = .ok () := by
      simp only [Job.remove]
      rw [if_neg hcond]
    rw [h] at hok
    cases hok
  · intro r hr hri
    obtain ⟨l1, l2, rfl⟩ := List.mem_iff_append.mp hr
    refine ⟨l1, l2, rfl, ?_⟩
    have hu2 : r.id ∉ l1.map (fun x => x.id) ++ l2.map (fun x => x.id) := by
      rw [List.map_append, List.map_cons, List.nodup_middle] at hu
      exact (List.nodup_cons.mp hu).1
    have hall : ∀ x, x ∈ l1 ++ l2 → x.id ≠ i := by
      intro x hx hxi
      apply hu2
      rw [← List.map_append]
      rw [hri, ← hxi]
      exact List.mem_map.mpr ⟨x, hx, rfl⟩
    have hmem : r ∈ (l1 ++ r :: l2).filter (fun x => x.id == i) := by
      rw [List.mem_filter]
      exact ⟨hr, by simp [hri]⟩
    have hcond : ¬((((l1 ++ r :: l2).filter (fun x => x.id == i)).length == 0) = true) := by
      intro hc
      rw [beq_iff_eq, List.length_eq_zero] at hc
      rw [hc] at hmem
      cases hmem
    simp only [Job.remove]
    rw [if_neg hcond]
    have hdel : (l1 ++ r :: l2).filter (fun x => !(x.id == i)) = l1 ++ l2 := by
      rw [List.filter_append, List.filter_cons]
      have hrfalse : (!(r.id == i)) = false := by simp [hri]
      rw [hrfalse]
      simp only [Bool.false_eq_true, if_false]
      rw [List.filter_eq_self.mpr, List.filter_eq_self.mpr]
      · intro a ha
        simpa using hall a (List.mem_append.mpr (Or.inr ha))
      · intro a ha
        simpa using hall a (List.mem_append.mpr (Or.inl ha))
    rw [hdel]

/-- Concrete rows and store for witnesses. -/
def exRow1 : JobRow :=
  { id := 1, title := "title1", salary := some 50000, equity := some 0, companyHandle := "c1" }

/-- Second concrete row. -/
def exRow2 : JobRow :=
  { id := 2, title := "title2", salary := some 60000, equity := some 1, companyHandle := "c2" }

/-- Concrete two-row store. -/
def exStore : Store := [exRow1, exRow2]

theorem remove_notFound_spec_witness :
    (exStore.map (fun r => r.id)).Nodup ∧
    (((∀ r ∈ exStore, r.id ≠ 1) → Job.remove exStore 1 = (.error .notFound, exStore)) ∧
     ((Job.remove exStore 1).1 = .error .notFound → ∀ r ∈ exStore, r.id ≠ 1) ∧
     (∀ r ∈ exStore, r.id = 1 →
       ∃ l1 l2, exStore = l1 ++ r :: l2 ∧ Job.remove exStore 1 = (.ok (), l1 ++ l2))) :=
  ⟨by decide, remove_notFound_spec exStore 1 (by decide)⟩

/-- setCol never writes the id column: the jobs table does not expose id
as assignable. -/
theorem setCol_id (r : JobRow) (a : String × Value) : (setCol r a).id = r.id := by
  unfold setCol
  repeat' split
  all_goals rfl

/-- setCol writes title only when the assignment names the title column. -/
theorem setCol_title (r : JobRow) (a : String × Value) (h : a.1 ≠ "title") :
    (setCol r a).title = r.title := by
  unfold setCol
  repeat' split
  all_goals first
  | rfl
  | exact absurd (by assumption) h

/-- setCol writes salary only when the assignment names the salary
column. -/
theorem setCol_salary (r : JobRow) (a : String × Value) (h : a.1 ≠ "salary") :
    (setCol r a).salary = r.salary := by
  unfold setCol
  repeat' split
  all_goals first
  | rfl
  | exact absurd (by assumption) h

/-- setCol writes equity only when the assignment names the equity
column. -/
theorem setCol_equity (r : JobRow) (a : String × Value) (h : a.1 ≠ "equity") :
    (setCol r a).equity = r.equity := by
  unfold setCol
  repeat' split
  all_goals first
  | rfl
  | exact absurd (by assumption) h

/-- setCol writes companyHandle only when the assignment names the
company_handle column. -/
theorem setCol_handle (r : JobRow) (a : String × Value) (h : a.1 ≠ "company_handle") :
    (setCol r a).companyHandle = r.companyHandle := by
  unfold setCol
  repeat' split
  all_goals first
  | rfl
  | exact absurd (by assumption) h

/-- applyAssigns unfolds one assignment at a time. -/
theorem applyAssigns_cons (r : JobRow) (a : String × Value) (t : List (String × Value)) :
    applyAssigns r (a :: t) = applyAssigns (setCol r a) t := rfl

/-- No SET clause writes the id column. -/
theorem applyAssigns_id : ∀ (l : List (String × Value)) (r : JobRow),
    (applyAssigns r l).id = r.id := by
  intro l
  induction l with
  | nil => intro r; rfl
  | cons a t ih => intro r; rw [applyAssigns_cons, ih, setCol_id]

/-- A SET clause not naming the title column leaves title unchanged. -/
theorem applyAssigns_title : ∀ (l : List (String × Value)) (r : JobRow),
    ("title") ∉ l.map (fun a => a.1) → (applyAssigns r l).title = r.title := by
  intro l
  induction l with
  | nil => intro r _; rfl
  | cons a t ih =>
    intro r h
    simp only [List.map_cons, List.mem_cons, not_or] at h
    rw [applyAssigns_cons, ih (setCol r a) h.2, setCol_title r a (fun he => h.1 he.symm)]

/-- A SET clause not naming the salary column leaves salary unchanged. -/
theorem applyAssigns_salary : ∀ (l : List (String × Value)) (r : JobRow),
    ("salary") ∉ l.map (fun a => a.1) → (applyAssigns r l).salary = r.salary := by
  intro l
  induction l with
  | nil => intro r _; rfl
  | cons a t ih =>
    intro r h
    simp only [List.map_cons, List.mem_cons, not_or] at h
    rw [applyAssigns_cons, ih (setCol r a) h.2, setCol_salary r a (fun he => h.1 he.symm)]

/-- A SET clause not naming the equity column leaves equity unchanged. -/
theorem applyAssigns_equity : ∀ (l : List (String × Value)) (r : JobRow),
    ("equity") ∉ l.map (fun a => a.1) → (applyAssigns r l).equity = r.equity := by
  intro l
  induction l with
  | nil => intro r _; rfl
  | cons a t ih =>
    intro r h
    simp only [List.map_cons, List.mem_cons, not_or] at h
    rw [applyAssigns_cons, ih (setCol r a) h.2, setCol_equity r a (fun he => h.1 he.symm)]

/-- A SET clause not naming the company_handle column leaves companyHandle
unchanged. -/
theorem applyAssigns_handle : ∀ (l : List (String × Value)) (r : JobRow),
    ("company_handle") ∉ l.map (fun a => a.1) →
    (applyAssigns r l).companyHandle = r.companyHandle := by
  intro l
  induction l with
  | nil => intro r _; rfl
  | cons a t ih =>
    intro r h
    simp only [List.map_cons, List.mem_cons, not_or] at h
    rw [applyAssigns_cons, ih (setCol r a) h.2, setCol_handle r a (fun he => h.1 he.symm)]

/-- An explicit null assignment to salary clears it when no later
assignment names salary again. -/
theorem applyAssigns_salary_null (l1 l2 : List (String × Value)) (r : JobRow)
    (h : ("salary") ∉ l2.map (fun a => a.1)) :
    (applyAssigns r (l1 ++ ((("salary"), Value.null)) :: l2)).salary = none := by
  show ((l1 ++ ((("salary"), Value.null)) :: l2).foldl setCol r).salary = none
  rw [List.foldl_append, List.foldl_cons]
  show (applyAssigns (setCol (applyAssigns r l1) ((("salary"), Value.null))) l2).salary = none
  rw [applyAssigns_salary l2 _ h]
  rfl

/-- An explicit null assignment to equity clears it when no later
assignment names equity again. -/
theorem applyAssigns_equity_null (l1 l2 : List (String × Value)) (r : JobRow)
    (h : ("equity") ∉ l2.map (fun a => a.1)) :
    (applyAssigns r (l1 ++ ((("equity"), Value.null)) :: l2)).equity = none := by
  show ((l1 ++ ((("equity"), Value.null)) :: l2).foldl setCol r).equity = none
  rw [List.foldl_append, List.foldl_cons]
  show (applyAssigns (setCol (applyAssigns r l1) ((("equity"), Value.null))) l2).equity = none
  rw [applyAssigns_equity l2 _ h]
  rfl

/-- Under the map Job.update passes, every key other than companyHandle is
its own column. -/
theorem colFor_job (k : String) (h : k ≠ "companyHandle") : colFor jobJsToSql k = k := by
  have hb : (("companyHandle") == k) = false := by
    rw [beq_eq_false_iff_ne]
    exact fun he => h he.symm
  have hl : lookupField jobJsToSql k = none := by
    unfold lookupField jobJsToSql
    simp [List.find?, hb]
  simp [colFor, hl]

/-- The companyHandle key is mapped to the company_handle column. -/
theorem colFor_job_handle : colFor jobJsToSql ("companyHandle") = ("company_handle") := rfl

/-- The columns of the SET clause are the data keys sent through the
companyHandle mapping. -/
theorem updateAssigns_fst (data : JsObject Value) :
    (updateAssigns data).map (fun a => a.1) = data.map (fun kv => colFor jobJsToSql kv.1) := by
  unfold updateAssigns
  rw [List.map_map]
  rfl

/-- A column other than company_handle appears in the SET clause only if
it is itself a data key. -/
theorem assigns_col_notmem (data : JsObject Value) (c : String)
    (hch : c ≠ "company_handle") (hc : c ∉ data.map (fun kv => kv.1)) :
    c ∉ (updateAssigns data).map (fun a => a.1) := by
  rw [updateAssigns_fst]
  intro hmem
  rw [List.mem_map] at hmem
  obtain ⟨kv, hkv, hkc⟩ := hmem
  by_cases hk : kv.1 = "companyHandle"
  · rw [hk, colFor_job_handle] at hkc
    exact hch hkc.symm
  · rw [colFor_job kv.1 hk] at hkc
    exact hc (List.mem_map.mpr ⟨kv, hkv, hkc⟩)

/-- The company_handle column appears in the SET clause only if
companyHandle or company_handle is a data key. -/
theorem assigns_handle_notmem (data : JsObject Value)
    (h1 : ("companyHandle") ∉ data.map (fun kv => kv.1))
    (h2 : ("company_handle") ∉ data.map (fun kv => kv.1)) :
    ("company_handle") ∉ (updateAssigns data).map (fun a => a.1) := by
  rw [updateAssigns_fst]
  intro hmem
  rw [List.mem_map] at hmem
  obtain ⟨kv, hkv, hkc⟩ := hmem
  by_cases hk : kv.1 = "companyHandle"
  · exact h1 (List.mem_map.mpr ⟨kv, hkv, hk⟩)
  · rw [colFor_job kv.1 hk] at hkc
    exact h2 (List.mem_map.mpr ⟨kv, hkv, hkc⟩)

/-- The table after a successful update statement: every row whose id
matches is rewritten by the SET clause, every other row kept in place. -/
def updatedStore (s : Store) (i : Int) (data : JsObject Value) : Store :=
  s.map (fun r => if r.id == i then applyAssigns r (updateAssigns data) else r)

/-- Rewriting a row never changes whether its id matches. -/
theorem updRow_id (i : Int) (data : JsObject Value) (r : JobRow) :
    ((if r.id == i then applyAssigns r (updateAssigns data) else r).id == i) = (r.id == i) := by
  by_cases h : (r.id == i) = true
  · rw [if_pos h, applyAssigns_id]
  · rw [if_neg h]

/-- Executing Job.update on non-empty, table-valid data: the statement
rewrites the matching rows and RETURNING surfaces the first of them, or
NotFoundError when there is none. -/
theorem update_run (s : Store) (i : Int) (data : JsObject Value)
    (hne : data ≠ []) (hva : (updateAssigns data).all validAssign = true) :
    Job.update s i data =
      match (s.filter (fun r => r.id == i)).head? with
      | none => (.error .notFound, updatedStore s i data)
      | some r0 => (.ok (applyAssigns r0 (updateAssigns data)), updatedStore s i data) := by
  have hupd := sqlForPartialUpdate_eq data jobJsToSql hne
  simp only [Job.update, hupd, hva, if_true]
  have hfilter :
      (List.filter (fun r => r.id == i)
          (s.map (fun r => if r.id == i then applyAssigns r (updateAssigns data) else r))).head? =
        ((s.filter (fun r => r.id == i)).head?).map
          (fun r => applyAssigns r (updateAssigns data)) := by
    rw [List.filter_map]
    have hcong :
        List.filter ((fun r => r.id == i) ∘
            (fun r => if r.id == i then applyAssigns r (updateAssigns data) else r)) s =
          List.filter (fun r => r.id == i) s :=
      List.filter_congr (fun x _ => updRow_id i data x)
    rw [hcong]
    have hmapf :
        List.map (fun r => if r.id == i then applyAssigns r (updateAssigns data) else r)
            (List.filter (fun r => r.id == i) s) =
          List.map (fun r => applyAssigns r (updateAssigns data))
            (List.filter (fun r => r.id == i) s) := by
      apply List.map_congr_left
      intro a ha
      rw [List.mem_filter] at ha
      exact if_pos ha.2
    rw [hmapf, List.head?_map]
  rw [hfilter]
  cases h0 : (s.filter (fun r => r.id == i)).head? with
  | none => rfl
  | some r0 => rfl

/-- Inversion of a successful Job.update: the data was non-empty and
valid for the table, the new store is the rewritten table, and the
returned job is the rewrite of the first row whose id matched. -/
theorem update_ok_inv (s t : Store) (i : Int) (data : JsObject Value) (job : JobRow)
    (hok : Job.update s i data = (.ok job, t)) :
    data ≠ [] ∧ (updateAssigns data).all validAssign = true ∧
    t = updatedStore s i data ∧
    ∃ r0, (s.filter (fun r => r.id == i)).head? = some r0 ∧
      job = applyAssigns r0 (updateAssigns data) := by
  have hne : data ≠ [] := by
    intro he
    subst he
    have hempty : Job.update s i [] = (.error .badRequest, s) := rfl
    rw [hempty] at hok
    simp at hok
  by_cases hva : (updateAssigns data).all validAssign = true
  · rw [update_run s i data hne hva] at hok
    cases h0 : (s.filter (fun r => r.id == i)).head? with
    | none =>
      rw [h0] at hok
      simp at hok
    | some r0 =>
      rw [h0] at hok
      simp only [Prod.mk.injEq, Except.ok.injEq] at hok
      exact ⟨hne, hva, hok.2.symm, r0, rfl, hok.1.symm⟩
  · have hbad : Job.update s i data = (.error .unexpected, s) := by
      have hupd := sqlForPartialUpdate_eq data jobJsToSql hne
      simp only [Job.update, hupd]
      rw [if_neg hva]
    rw [hbad] at hok
    simp at hok

/-- C5: for non-empty partialData whose assignments the jobs table
accepts, update fails with NotFound exactly when no job with that id
exists — and then the store is untouched — and when the job exists it
succeeds and returns the updated full record, carrying the requested
id. -/
theorem update_notFound_spec (s : Store) (i : Int) (data : JsObject Value)
    (hne : data ≠ []) (hva : (updateAssigns data).all validAssign = true) :
    ((Job.update s i data).1 = .error .notFound ↔ ∀ r ∈ s, r.id ≠ i) ∧
    ((∀ r ∈ s, r.id ≠ i) → Job.update s i data = (.error .notFound, s)) ∧
    ((∃ r ∈ s, r.id = i) →
      ∃ job t, Job.update s i data = (.ok job, t) ∧ job.id = i ∧
        ∃ r0 ∈ s, r0.id = i ∧ job = applyAssigns r0 (updateAssigns data)) := by
  rw [update_run s i data hne hva]
  cases h0 : (s.filter (fun r => r.id == i)).head? with
  | none =>
    have hnil : s.filter (fun r => r.id == i) = [] := List.head?_eq_none_iff.mp h0
    have hno : ∀ r ∈ s, r.id ≠ i := by
      intro r hr hri
      have hmem : r ∈ s.filter (fun x => x.id == i) :=
        List.mem_filter.mpr ⟨hr, by simp [hri]⟩
      rw [hnil] at hmem
      cases hmem
    have hid : updatedStore s i data = s := by
      unfold updatedStore
      have hrows : ∀ r ∈ s,
          (if r.id == i then applyAssigns r (updateAssigns data) else r) = r := by
        intro r hr
        rw [if_neg]
        simp [hno r hr]
      rw [List.map_congr_left hrows, List.map_id']
    refine ⟨⟨fun _ => hno, fun _ => rfl⟩, fun _ => by rw [hid], fun hex => ?_⟩
    obtain ⟨r, hr, hri⟩ := hex
    exact absurd hri (hno r hr)
  | some r0 =>
    have hr0mem : r0 ∈ s.filter (fun x => x.id == i) :=
      List.mem_of_mem_head? (Option.mem_def.mpr h0)
    obtain ⟨hr0s, hr0i⟩ := List.mem_filter.mp hr0mem
    have hid : r0.id = i := by simpa using hr0i
    refine ⟨⟨fun h => by simp at h, fun hall => absurd hid (hall r0 hr0s)⟩,
            fun hall => absurd hid (hall r0 hr0s), fun _ => ?_⟩
    exact ⟨applyAssigns r0 (updateAssigns data), updatedStore s i data, rfl,
           by rw [applyAssigns_id]; exact hid, r0, hr0s, hid, rfl⟩

/-- Concrete update data for the C5 witness: the repository's updateData
test object. -/
def exData3 : JsObject Value :=
  [(("title"), .str ("Updated Job")), (("salary"), .int 150000)]

theorem update_notFound_spec_witness :
    exData3 ≠ [] ∧ (updateAssigns exData3).all validAssign = true ∧
    (((Job.update exStore 1 exData3).1 = .error .notFound ↔ ∀ r ∈ exStore, r.id ≠ 1) ∧
     ((∀ r ∈ exStore, r.id ≠ 1) → Job.update exStore 1 exData3 = (.error .notFound, exStore)) ∧
     ((∃ r ∈ exStore, r.id = 1) →
       ∃ job t, Job.update exStore 1 exData3 = (.ok job, t) ∧ job.id = 1 ∧
         ∃ r0 ∈ exStore, r0.id = 1 ∧ job = applyAssigns r0 (updateAssigns exData3))) :=
  ⟨by decide, by rfl, update_notFound_spec exStore 1 exData3 (by decide) (by rfl)⟩

/-- C6: a successful update changes only what partialData names: the new
store rewrites exactly the rows whose id matches and keeps every other
row in place; the rewrite never changes the id; any field whose key is
absent from partialData keeps its value (for companyHandle, absence of
both spellings of the key); and an explicit null clears salary or
equity rather than defaulting it. -/
theorem update_frame (s t : Store) (i : Int) (data : JsObject Value) (job r : JobRow)
    (hnd : (data.map (fun kv => kv.1)).Nodup)
    (hok : Job.update s i data = (.ok job, t)) :
    t = s.map (fun x => if x.id == i then applyAssigns x (updateAssigns data) else x) ∧
    (applyAssigns r (updateAssigns data)).id = r.id ∧
    (("title") ∉ data.map (fun kv => kv.1) →
      (applyAssigns r (updateAssigns data)).title = r.title) ∧
    (("salary") ∉ data.map (fun kv => kv.1) →
      (applyAssigns r (updateAssigns data)).salary = r.salary) ∧
    (("equity") ∉ data.map (fun kv => kv.1) →
      (applyAssigns r (updateAssigns data)).equity = r.equity) ∧
    (("companyHandle") ∉ data.map (fun kv => kv.1) →
      ("company_handle") ∉ data.map (fun kv => kv.1) →
      (applyAssigns r (updateAssigns data)).companyHandle = r.companyHandle) ∧
    (((("salary"), Value.null)) ∈ data →
      (applyAssigns r (updateAssigns data)).salary = none) ∧
    (((("equity"), Value.null)) ∈ data →
      (applyAssigns r (updateAssigns data)).equity = none) := by
  obtain ⟨hne, hva, ht, -⟩ := update_ok_inv s t i data job hok
  refine ⟨ht, applyAssigns_id _ r, ?_, ?_, ?_, ?_, ?_, ?_⟩
  · intro h
    exact applyAssigns_title _ r (assigns_col_notmem data ("title") (by decide) h)
  · intro h
    exact applyAssigns_salary _ r (assigns_col_notmem data ("salary") (by decide) h)
  · intro h
    exact applyAssigns_equity _ r (assigns_col_notmem data ("equity") (by decide) h)
  · intro h1 h2
    exact applyAssigns_handle _ r (assigns_handle_notmem data h1 h2)
  · intro hmem
    obtain ⟨d1, d2, rfl⟩ := List.mem_iff_append.mp hmem
    have hnot : ("salary") ∉ d1.map (fun kv => kv.1) ++ d2.map (fun kv => kv.1) := by
      rw [List.map_append, List.map_cons, List.nodup_middle] at hnd
      exact (List.nodup_cons.mp hnd).1
    have hsplit : updateAssigns (d1 ++ ((("salary"), Value.null)) :: d2) =
        updateAssigns d1 ++ ((("salary"), Value.null)) :: updateAssigns d2 := by
      unfold updateAssigns
      rw [List.map_append, List.map_cons]
      rw [colFor_job ("salary") (by decide)]
    rw [hsplit]
    exact applyAssigns_salary_null _ _ r
      (assigns_col_notmem d2 ("salary") (by decide)
        (fun hmem2 => hnot (List.mem_append.mpr (Or.inr hmem2))))
  · intro hmem
    obtain ⟨d1, d2, rfl⟩ := List.mem_iff_append.mp hmem
    have hnot : ("equity") ∉ d1.map (fun kv => kv.1) ++ d2.map (fun kv => kv.1) := by
      rw [List.map_append, List.map_cons, List.nodup_middle] at hnd
      exact (List.nodup_cons.mp hnd).1
    have hsplit : updateAssigns (d1 ++ ((("equity"), Value.null)) :: d2) =
        updateAssigns d1 ++ ((("equity"), Value.null)) :: updateAssigns d2 := by
      unfold updateAssigns
      rw [List.map_append, List.map_cons]
      rw [colFor_job ("equity") (by decide)]
    rw [hsplit]
    exact applyAssigns_equity_null _ _ r
      (assigns_col_notmem d2 ("equity") (by decide)
        (fun hmem2 => hnot (List.mem_append.mpr (Or.inr hmem2))))

/-- Concrete update data for the C6 witness: set title, clear salary. -/
def exData4 : JsObject Value :=
  [(("title"), .str ("z")), (("salary"), Value.null)]

/-- The row the C6 witness update produces. -/
def exJob4 : JobRow :=
  { id := 1, title := "z", salary := none, equity := some 0, companyHandle := "c1" }

/-- The store the C6 witness update produces. -/
def exStore4 : Store := [exJob4, exRow2]

theorem update_frame_witness :
    (exData4.map (fun kv => kv.1)).Nodup ∧
    Job.update exStore 1 exData4 = (.ok exJob4, exStore4) ∧
    (exStore4 = exStore.map
        (fun x => if x.id == 1 then applyAssigns x (updateAssigns exData4) else x) ∧
     (applyAssigns exRow1 (updateAssigns exData4)).id = exRow1.id ∧
     (("title") ∉ exData4.map (fun kv => kv.1) →
       (applyAssigns exRow1 (updateAssigns exData4)).title = exRow1.title) ∧
     (("salary") ∉ exData4.map (fun kv => kv.1) →
       (applyAssigns exRow1 (updateAssigns exData4)).salary = exRow1.salary) ∧
     (("equity") ∉ exData4.map (fun kv => kv.1) →
       (applyAssigns exRow1 (updateAssigns exData4)).equity = exRow1.equity) ∧
     (("companyHandle") ∉ exData4.map (fun kv => kv.1) →
       ("company_handle") ∉ exData4.map (fun kv => kv.1) →
       (applyAssigns exRow1 (updateAssigns exData4)).companyHandle = exRow1.companyHandle) ∧
     (((("salary"), Value.null)) ∈ exData4 →
       (applyAssigns exRow1 (updateAssigns exData4)).salary = none) ∧
     (((("equity"), Value.null)) ∈ exData4 →
       (applyAssigns exRow1 (updateAssigns exData4)).equity = none)) :=
  ⟨by decide, rfl, update_frame exStore exStore4 1 exData4 exJob4 exRow1 (by decide) rfl⟩

/-- The company-handle comparison is total. -/
theorem charListLe_total : ∀ (a b : List Char), (charListLe a b || charListLe b a) = true := by
  intro a
  induction a with
  | nil => intro b; simp [charListLe]
  | cons x xs ih =>
    intro b
    cases b with
    | nil => simp [charListLe]
    | cons y ys =>
      simp only [charListLe]
      rcases lt_trichotomy x y with h | h | h
      · simp [h]
      · subst h
        simp only [lt_irrefl, if_false]
        exact ih ys
      · simp [h, lt_asymm h]

/-- The company-handle comparison is transitive. -/
theorem charListLe_trans : ∀ (a b c : List Char),
    charListLe a b = true → charListLe b c = true → charListLe a c = true := by
  intro a
  induction a with
  | nil => intro b c _ _; rfl
  | cons x xs ih =>
    intro b c hab hbc
    cases b with
    | nil => simp [charListLe] at hab
    | cons y ys =>
      cases c with
      | nil => simp [charListLe] at hbc
      | cons z zs =>
        simp only [charListLe] at hab hbc ⊢
        rcases lt_trichotomy x y with hxy | hxy | hxy
        · rcases lt_trichotomy y z with hyz | hyz | hyz
          · simp [lt_trans hxy hyz]
          · subst hyz
            simp [hxy]
          · rw [if_neg (lt_asymm hyz), if_pos hyz] at hbc
            cases hbc
        · subst hxy
          rcases lt_trichotomy x z with hxz | hxz | hxz
          · simp [hxz]
          · subst hxz
            rw [if_neg (lt_irrefl x), if_neg (lt_irrefl x)] at hab hbc ⊢
            exact ih ys zs hab hbc
          · rw [if_neg (lt_asymm hxz), if_pos hxz] at hbc
            cases hbc
        · rw [if_neg (lt_asymm hxy), if_pos hxy] at hab
          cases hab

/-- Row ordering by company handle is transitive. -/
theorem handleLe_trans : ∀ (a b c : JobRow),
    handleLe a b = true → handleLe b c = true → handleLe a c = true :=
  fun _ _ _ hab hbc => charListLe_trans _ _ _ hab hbc

/-- Row ordering by company handle is total. -/
theorem handleLe_total : ∀ (a b : JobRow), (handleLe a b || handleLe b a) = true :=
  fun _ _ => charListLe_total _ _

/-- ORDER BY returns the same rows (it only rearranges). -/
theorem orderBy_perm (rows : Store) : (orderByCompanyHandle rows).Perm rows :=
  List.mergeSort_perm rows handleLe

/-- ORDER BY company_handle sorts the rows by company handle. -/
theorem orderBy_sorted (rows : Store) :
    (orderByCompanyHandle rows).Pairwise (fun a b => handleLe a b = true) :=
  List.sorted_mergeSort handleLe_trans handleLe_total rows

/-- C7: findFiltered with an empty filters object returns exactly what
findAll returns — the whole store ordered by companyHandle ascending. -/
theorem findFiltered_noFilters (s : Store) :
    Job.findFiltered s {} = Job.findAll s ∧
    (Job.findAll s).Pairwise (fun a b => handleLe a b = true) :=
  ⟨rfl, orderBy_sorted s⟩

/-- findFiltered is the conjunction filter followed by ORDER BY: the
conditionally collected whereExpressions, ANDed, select exactly the rows
satisfying every present predicate, and the no-expression case skips the
WHERE clause altogether. -/
theorem findFiltered_eq (s : Store) (f : Filters) :
    Job.findFiltered s f =
      orderByCompanyHandle (s.filter (fun r =>
        (match f.title with
         | some t => iLikeContains t r.title
         | none => true) &&
        (match f.minSalary with
         | some m => (match r.salary with
                      | some sal => decide (m ≤ sal)
                      | none => false)
         | none => true) &&
        (match f.hasEquity with
         | some true => (match r.equity with
                         | some e => decide (0 < e)
                         | none => false)
         | _ => true))) := by
  rcases f with ⟨ft, fm, fe⟩
  rcases ft with _ | t <;> rcases fm with _ | m <;> rcases fe with _ | b
  case mk.none.none.some | mk.none.some.some | mk.some.none.some | mk.some.some.some =>
    cases b <;>
      simp [Job.findFiltered, titleFilterPred, minSalaryPred, equityPred,
            List.all_cons, List.all_nil, List.filter_true, Bool.and_assoc]
  all_goals
    simp [Job.findFiltered, titleFilterPred, minSalaryPred, equityPred,
          List.all_cons, List.all_nil, List.filter_true, Bool.and_assoc]

/-- C2: findFiltered returns exactly the jobs satisfying the conjunction
of the present predicates — title present means case-insensitive
containment of the value in the title; minSalary present means salary at
least the bound; hasEquity some true means equity strictly positive;
hasEquity false or absent, like any omitted filter, imposes nothing — and
the result is ordered by companyHandle. -/
theorem findFiltered_spec (s : Store) (f : Filters) :
    (Job.findFiltered s f).Perm (s.filter (fun r =>
      (match f.title with
       | some t => iLikeContains t r.title
       | none => true) &&
      (match f.minSalary with
       | some m => (match r.salary with
                    | some sal => decide (m ≤ sal)
                    | none => false)
       | none => true) &&
      (match f.hasEquity with
       | some true => (match r.equity with
                       | some e => decide (0 < e)
                       | none => false)
       | _ => true))) ∧
    (Job.findFiltered s f).Pairwise (fun a b => handleLe a b = true) := by
  rw [findFiltered_eq]
  exact ⟨orderBy_perm _, orderBy_sorted _⟩

/-- C8: through the API partial-update mapping path, companyHandle is
immutable: a successful apiUpdate leaves every row's companyHandle in
place, the returned record carries the companyHandle of the row it
updated, and the accepted body could not have named companyHandle (either
spelling) — an attempt to change it is answered with BadRequest before
the store is touched, so it is not exposed through this path. -/
theorem apiUpdate_handle_immutable (s t : Store) (i : Int) (data : JsObject Value)
    (job : JobRow) (hok : apiUpdate s i data = (.ok job, t)) :
    t.map (fun r => r.companyHandle) = s.map (fun r => r.companyHandle) ∧
    (∃ r0 ∈ s, r0.id = i ∧ job.companyHandle = r0.companyHandle) ∧
    (∀ kv ∈ data, kv.1 ≠ "companyHandle" ∧ kv.1 ≠ "company_handle") := by
  unfold apiUpdate at hok
  split at hok
  case isTrue hall =>
    have hkeys : ∀ kv ∈ data, kv.1 ≠ "companyHandle" ∧ kv.1 ≠ "company_handle" := by
      intro kv hkv
      have ha2 := List.all_eq_true.mp hall kv hkv
      constructor <;> intro he <;> rw [he] at ha2 <;>
        exact absurd ha2 (by decide)
    have hcols : ("company_handle") ∉ (updateAssigns data).map (fun a => a.1) := by
      apply assigns_handle_notmem
      · intro hmem
        obtain ⟨kv, hkv, hk⟩ := List.mem_map.mp hmem
        exact (hkeys kv hkv).1 hk
      · intro hmem
        obtain ⟨kv, hkv, hk⟩ := List.mem_map.mp hmem
        exact (hkeys kv hkv).2 hk
    obtain ⟨hne, hva, ht, r0, h0, hjob⟩ := update_ok_inv s t i data job hok
    have hr0mem : r0 ∈ s.filter (fun x => x.id == i) :=
      List.mem_of_mem_head? (Option.mem_def.mpr h0)
    obtain ⟨hr0s, hr0i⟩ := List.mem_filter.mp hr0mem
    refine ⟨?_, ⟨r0, hr0s, by simpa using hr0i, ?_⟩, hkeys⟩
    · rw [ht]
      unfold updatedStore
      rw [List.map_map]
      apply List.map_congr_left
      intro a _
      show (if a.id == i then applyAssigns a (updateAssigns data) else a).companyHandle =
        a.companyHandle
      by_cases h : (a.id == i) = true
      · rw [if_pos h]
        exact applyAssigns_handle _ a hcols
      · rw [if_neg h]
    · rw [hjob]
      exact applyAssigns_handle _ r0 hcols
  case isFalse =>
    simp at hok

/-- Concrete body for the C8 witness: a title-only PATCH. -/
def exData5 : JsObject Value :=
  [(("title"), .str ("nz"))]

/-- The row the C8 witness update produces. -/
def exJob5 : JobRow :=
  { id := 1, title := "nz", salary := some 50000, equity := some 0, companyHandle := "c1" }

/-- The store the C8 witness update produces. -/
def exStore5 : Store := [exJob5, exRow2]

theorem apiUpdate_handle_immutable_witness :
    apiUpdate exStore 1 exData5 = (.ok exJob5, exStore5) ∧
    (exStore5.map (fun r => r.companyHandle) = exStore.map (fun r => r.companyHandle) ∧
     (∃ r0 ∈ exStore, r0.id = 1 ∧ exJob5.companyHandle = r0.companyHandle) ∧
     (∀ kv ∈ exData5, kv.1 ≠ "companyHandle" ∧ kv.1 ≠ "company_handle")) :=
  ⟨rfl, apiUpdate_handle_immutable exStore exStore5 1 exData5 exJob5 rfl⟩
